import Mathlib

/-!
# LabelGenerator — verification of the frame-sampling / detection / export pipeline

Shallow embedding of the algorithmic core of the LabelGenerator repository
(`src/components/ImageAnnotator.tsx`, `src/components/ManualClipEditor.tsx` and
its unnamed sibling source file): the Detector Adapter, the Blur Scorer, the
clip segmentation and splitting steps, the Annotation Store mutators and the
Exporter with its persistent per-label clip counters.

JavaScript numbers are modelled as `ℚ` (the pipeline performs only exact
comparisons, `min`/`max`, `Math.floor` and field arithmetic on them), strings
as `String`, JS arrays as `List`, the `Set` of review-marked frame indices as
`Finset ℕ`, and the persisted `labelClipCounters` record as a total function
`String → ℕ` (absent keys read as 0, mirroring `counters[label] || 0`).
The external COCO-SSD model is an oracle supplying raw predictions.
-/

namespace LabelGenerator

/-- A bounding box on a frame, as stored by the annotator
(`interface Detection` in `ImageAnnotator.tsx`). -/
structure Detection where
  x : ℚ
  y : ℚ
  width : ℚ
  height : ℚ
  label : String
  confidence : ℚ
deriving DecidableEq

/-- One raw prediction returned by the external COCO-SSD model:
`{bbox:[x,y,w,h], class: string, score: number}`. -/
structure Prediction where
  bboxX : ℚ
  bboxY : ℚ
  bboxW : ℚ
  bboxH : ℚ
  cls : String
  score : ℚ
deriving DecidableEq

/-- JavaScript `Math.max` on two numbers (no NaN in the modelled fragment). -/
def jsMax (a b : ℚ) : ℚ := if a ≤ b then b else a

/-- JavaScript `Math.min` on two numbers. -/
def jsMin (a b : ℚ) : ℚ := if a ≤ b then a else b

/-- Model of `pred.class.charAt(0).toUpperCase() + pred.class.slice(1)` — capitalize the
first letter of the detector's class name. -/
def capitalizeFirst (s : String) : String :=
  match s.data with
  | [] => ""
  | c :: cs => (c.toUpper :: cs).asString

/-- The Detector Adapter `detectObjects` (ImageAnnotator.tsx, lines 568–633),
as a pure function of the raw model output for one image: keep predictions with
`score >= threshold`, expand each box horizontally by
`paddingPercent/100 × boxWidth` on each side, clamp to image bounds, capitalize
the class name, and drop boxes that end up with non-positive width or height. -/
def detectObjects (imgW imgH threshold boundingBoxPadding : ℚ)
    (preds : List Prediction) : List Detection :=
  ((preds.filter (fun p => decide (threshold ≤ p.score))).map (fun p =>
    let padding := p.bboxW * (boundingBoxPadding / 100)
    let x := jsMax 0 (p.bboxX - padding)
    let y := jsMax 0 p.bboxY
    let width := jsMin (p.bboxW + padding * 2) (imgW - x)
    let height := jsMin p.bboxH (imgH - y)
    { x := x, y := y, width := width, height := height,
      label := capitalizeFirst p.cls, confidence := p.score })).filter
    (fun d => decide (0 < d.width) && decide (0 < d.height))

/-- One stored frame of the Annotation Store (`interface ImageData`):
its file name, detections, optional 1-based frame number, optional source
clip/video name, and the optional operator-assigned activity label. -/
structure ImageData where
  fileName : String
  detections : List Detection
  frameNumber : Option ℕ := none
  sourceVideo : Option String := none
  activityLabel : Option String := none
deriving DecidableEq

/-- The fixed COCO-SSD class denylist used by the Exporter
(ImageAnnotator.tsx, lines 1537–1550), each entry lowercased on construction
(`.map((l) => l.toLowerCase())`). JS `toLowerCase` is modelled by
`String.toLower` (they agree on ASCII, which is all the list contains). -/
def cocoLabels : List String :=
  [ "person", "bicycle", "car", "motorcycle", "airplane", "bus", "train", "truck", "boat",
    "traffic light", "fire hydrant", "stop sign", "parking meter", "bench", "bird", "cat",
    "dog", "horse", "sheep", "cow", "elephant", "bear", "zebra", "giraffe", "backpack",
    "umbrella", "handbag", "tie", "suitcase", "frisbee", "skis", "snowboard", "sports ball",
    "kite", "baseball bat", "baseball glove", "skateboard", "surfboard", "tennis racket",
    "bottle", "wine glass", "cup", "fork", "knife", "spoon", "bowl", "banana", "apple",
    "sandwich", "orange", "broccoli", "carrot", "hot dog", "pizza", "donut", "cake", "chair",
    "couch", "potted plant", "bed", "dining table", "toilet", "tv", "laptop", "mouse", "remote",
    "keyboard", "cell phone", "microwave", "oven", "toaster", "sink", "refrigerator", "book",
    "clock", "vase", "scissors", "teddy bear", "hair drier", "toothbrush" ].map String.toLower

/-- Model of `getCustomLabel` (ImageAnnotator.tsx, lines 1574–1585): the frame's export
label — the trimmed `activityLabel` when non-empty, otherwise the first
detection whose trimmed label is non-empty and, lowercased, not in the COCO
denylist; `none` when no detection qualifies. -/
def getCustomLabel (img : ImageData) : Option String :=
  let explicit := (img.activityLabel.getD "").trim
  if explicit = "" then
    img.detections.findSome? (fun det =>
      if det.label.trim ≠ "" ∧ cocoLabels.contains det.label.trim.toLower = false then
        some det.label.trim
      else none)
  else some explicit

/-- The slice of annotator state touched by `applyQuickLabel`: the frame list,
the currently selected frame index, and the review-marked (deletion) set. -/
structure AnnotatorState where
  images : List ImageData
  currentIndex : ℕ
  selectedImages : Finset ℕ
deriving DecidableEq

/-- Model of `applyQuickLabel` (ImageAnnotator.tsx, lines 229–250): on the current
frame, set `activityLabel`, rewrite every detection's label to match, and
un-mark the frame from the review/deletion set; no-op when there is no
current image. -/
def applyQuickLabel (label : String) (st : AnnotatorState) : AnnotatorState :=
  match st.images[st.currentIndex]? with
  | none => st
  | some img =>
      { st with
        images := st.images.set st.currentIndex
          { img with
            activityLabel := some label,
            detections := img.detections.map (fun d => { d with label := label }) },
        selectedImages := st.selectedImages.erase st.currentIndex }

/-- Model of `String(n).padStart(width, "0")`: decimal representation left-padded with
zeros to at least `width` characters. -/
def padNum (width n : ℕ) : String :=
  (List.replicate (width - (Nat.repr n).length) '0').asString ++ Nat.repr n

/-- Model of `name.replace(/\.[^/.]+$/, "")`: strip a final dot-extension (a `.`
followed by one or more characters none of which is `/` or `.`) when present. -/
def stripLastExtension (s : String) : String :=
  let rev := s.data.reverse
  let ext := rev.takeWhile (fun c => decide (c ≠ '.') && decide (c ≠ '/'))
  match rev.drop ext.length with
  | '.' :: rest => if ext.isEmpty then s else rest.reverse.asString
  | _ => s

/-- One frame of a created clip: the generated file name, the seek time the
still was captured at, and its 1-based number within the clip. -/
structure ClipFrame where
  fileName : String
  time : ℚ
  frameNumber : ℕ
deriving DecidableEq

/-- A clip produced by the Clips tab (`interface ClipData`). -/
structure ClipData where
  name : String
  frames : List ClipFrame
  sourceVideo : String
  isManual : Bool := false
deriving DecidableEq

/-- Model of `createClipsFromVideo` (ImageAnnotator.tsx, lines 780–889): sample the
video every `clipFrameInterval` seconds and group the stills into clips of
`framesPerClip` frames. `totalFrames = Math.floor(duration/interval)`,
`numClips = Math.ceil(totalFrames/framesPerClip)`; inside each clip the frame
loop breaks once `currentTime > duration`, and a clip is kept only when it
received at least one frame. -/
def createClipsFromVideo (videoName : String) (duration clipFrameInterval : ℚ)
    (framesPerClip : ℕ) : List ClipData :=
  if duration ≤ 0 then []
  else
    let totalFrames := (⌊duration / clipFrameInterval⌋).toNat
    let numClips := (totalFrames + framesPerClip - 1) / framesPerClip
    (List.range numClips).filterMap (fun clipIdx =>
      let frames := ((List.range framesPerClip).takeWhile (fun frameInClip =>
          decide (((clipIdx * framesPerClip + frameInClip : ℕ) : ℚ) * clipFrameInterval
            ≤ duration))).map (fun frameInClip =>
        { fileName := padNum 5 (frameInClip + 1) ++ ".jpg",
          time := ((clipIdx * framesPerClip + frameInClip : ℕ) : ℚ) * clipFrameInterval,
          frameNumber := frameInClip + 1 })
      if frames.isEmpty then none
      else some { name := stripLastExtension videoName ++ padNum 2 (clipIdx + 1),
                  frames := frames, sourceVideo := videoName })

/-- Per-frame input from the external detector: the frame's dimensions and the
raw model predictions for it (the oracle consumed by `handleRedetect`). -/
structure DetectInput where
  imgW : ℚ
  imgH : ℚ
  preds : List Prediction
deriving DecidableEq

/-- Model of `handleRedetect` (ImageAnnotator.tsx, lines 1432–1467): re-run detection on
every stored frame; when the frame's trimmed `activityLabel` is non-empty,
rewrite every fresh detection whose (lowercased) label is "person" to that
trimmed label; the frame record is otherwise kept (`{...img, detections}`). -/
def handleRedetect (confidenceThreshold boundingBoxPadding : ℚ)
    (oracle : ℕ → DetectInput) (images : List ImageData) : List ImageData :=
  images.mapIdx (fun i img =>
    let keepLabel := (img.activityLabel.getD "").trim
    let fresh := detectObjects (oracle i).imgW (oracle i).imgH
      confidenceThreshold boundingBoxPadding (oracle i).preds
    { img with
      detections :=
        if keepLabel = "" then fresh
        else fresh.map (fun d =>
          if d.label.toLower = "person" then { d with label := keepLabel } else d) })

/-- JavaScript `Math.max` on integers (used after `Math.floor`). -/
def jsMaxI (a b : ℤ) : ℤ := if a ≤ b then b else a

/-- JavaScript `Math.min` on integers. -/
def jsMinI (a b : ℤ) : ℤ := if a ≤ b then a else b

/-- A canvas pixel buffer: dimensions plus the RGB value (each channel a
number in 0..255) at each absolute coordinate, as read by `getImageData`. -/
structure Canvas where
  width : ℕ
  height : ℕ
  pixel : ℕ → ℕ → ℚ × ℚ × ℚ

/-- The Blur Scorer `detectMotionBlur` (ImageAnnotator.tsx, lines 639–680):
clamp the detection region to the canvas, return the sentinel 999 for an empty
region, otherwise convert the region to luma grayscale, apply the discrete
Laplacian `4·center − 4-neighbour sum` over interior pixels and return the
variance of the response; 999 again if the region has no interior pixels. -/
def detectMotionBlur (canvas : Canvas) (detection : Detection) : ℚ :=
  let safeX := jsMaxI 0 ⌊detection.x⌋
  let safeY := jsMaxI 0 ⌊detection.y⌋
  let safeWidth := jsMinI ⌊detection.width⌋ ((canvas.width : ℤ) - safeX)
  let safeHeight := jsMinI ⌊detection.height⌋ ((canvas.height : ℤ) - safeY)
  if safeWidth ≤ 0 ∨ safeHeight ≤ 0 then 999
  else
    let w := safeWidth.toNat
    let h := safeHeight.toNat
    let gray : ℕ → ℕ → ℚ := fun row col =>
      let rgb := canvas.pixel (safeX.toNat + col) (safeY.toNat + row)
      299/1000 * rgb.1 + 587/1000 * rgb.2.1 + 114/1000 * rgb.2.2
    let laps := (List.range (h - 2)).map (fun r => (List.range (w - 2)).map (fun c =>
      4 * gray (r + 1) (c + 1) - gray (r + 1) c - gray (r + 1) (c + 2)
        - gray r (c + 1) - gray (r + 2) (c + 1))) |>.flatten
    if laps.length = 0 then 999
    else
      let count : ℚ := laps.length
      let mean := laps.sum / count
      (laps.map (fun v => v * v)).sum / count - mean * mean

/-- A frame candidate inside `extractFramesFromChunk`: its canvas and the
frame record to be stored, whose `detections` field holds the person-class
detections found on it. -/
structure ChunkFrame where
  canvas : Canvas
  frame : ImageData

/-- The inner `allBlurry` loop of the motion-blur check: true iff every person
detection on the frame scores strictly below the threshold (the loop starts at
`true` and breaks to `false` on the first score `≥ blurThreshold`). -/
def allBlurry (c : ChunkFrame) (blurThreshold : ℚ) : Bool :=
  c.frame.detections.all (fun det => decide (detectMotionBlur c.canvas det < blurThreshold))

/-- The retention-and-flagging loop of `extractFramesFromChunk`
(ImageAnnotator.tsx, lines 1177–1214): a frame is kept iff it has at least one
person detection; when motion-blur filtering is on and all its person
detections are blurry its index (position in the kept list, offset by the
running counter) is recorded in `blurryIndices`; flagged frames are still
pushed to the result. -/
def processChunkFrames (filterMotionBlur : Bool) (blurThreshold : ℚ) :
    List ChunkFrame → ℕ → List ChunkFrame × List ℕ
  | [], _ => ([], [])
  | c :: rest, k =>
    if c.frame.detections.isEmpty then
      processChunkFrames filterMotionBlur blurThreshold rest k
    else
      let r := processChunkFrames filterMotionBlur blurThreshold rest (k + 1)
      (c :: r.1, (if filterMotionBlur && allBlurry c blurThreshold then [k] else []) ++ r.2)

/-- Decimal digit-character list of a natural number, most significant digit
first: the reference recursion computed by `Nat.toDigitsCore`. -/
def digitsRec (n : ℕ) : List Char :=
  if _h : n < 10 then [Nat.digitChar n]
  else digitsRec (n / 10) ++ [Nat.digitChar (n % 10)]
decreasing_by exact Nat.div_lt_self (by omega) (by omega)

/-- The consecutive slices `allFrames.slice(k·cs, (k+1)·cs)` for `k < m`, as
produced by a `for (i = 0; i < n; i += cs)`-style chunking loop. -/
def sliceChunks (cs m : ℕ) (l : List α) : List (List α) :=
  (List.range m).map (fun k => (l.drop (k * cs)).take cs)

/-- Hard per-clip frame cap (`MAX_FRAMES_PER_CLIP = 200`, YOWO compatibility). -/
def MAX_FRAMES_PER_CLIP : ℕ := 200

/-- One output part of the split loop: the `chunkIdx`-th slice
`allFrames.slice(start, min(start + chunkSize, n))` renumbered from 1 and
named with the `partN` suffix. -/
def mkSplitPart (baseName videoName : String) (chunkSize : ℕ)
    (allFrames : List ClipFrame) (chunkIdx : ℕ) : ClipData :=
  { name := baseName ++ "part" ++ Nat.repr (chunkIdx + 1),
    frames := ((allFrames.drop (chunkIdx * chunkSize)).take chunkSize).mapIdx
      (fun idx f => { f with frameNumber := idx + 1 }),
    sourceVideo := videoName }

/-- The split-on-cap step of `extractClipsFromMarkers` (unnamed
ManualClipEditor source, lines 1076–1110): a marker's extracted frame list of
at most 200 frames becomes a single clip; a longer one is divided into
`numChunks = Math.ceil(n / 200)` consecutive slices of
`chunkSize = Math.ceil(n / numChunks)` frames ("distribute evenly"), each
slice renumbered from 1 and named with a distinct `partN` suffix. -/
def splitMarkerClip (baseName videoName : String) (allFrames : List ClipFrame) :
    List ClipData :=
  if allFrames.length ≤ MAX_FRAMES_PER_CLIP then
    [{ name := baseName, frames := allFrames, sourceVideo := videoName }]
  else
    let numChunks := (allFrames.length + MAX_FRAMES_PER_CLIP - 1) / MAX_FRAMES_PER_CLIP
    let chunkSize := (allFrames.length + numChunks - 1) / numChunks
    (List.range numChunks).map (mkSplitPart baseName videoName chunkSize allFrames)

/-- Model of `(img.sourceVideo ?? "ungrouped").trim() || "ungrouped"` — the clip key a
frame is grouped under at export. -/
def clipKeyOf (img : ImageData) : String :=
  let s := (img.sourceVideo.getD "ungrouped").trim
  if s = "" then "ungrouped" else s

/-- The export candidate list: all frames, or only those with a qualifying
label when `exportOnlyLabeled` is set. -/
def imagesToExport (images : List ImageData) (exportOnlyLabeled : Bool) :
    List ImageData :=
  if exportOnlyLabeled then images.filter (fun img => (getCustomLabel img).isSome)
  else images

/-- First-occurrence de-duplication, modelling JS `Map` key insertion order. -/
def uniqInOrder (l : List String) : List String :=
  l.foldl (fun acc x => if x ∈ acc then acc else acc ++ [x]) []

/-- The labels of the export, in `byLabel` Map insertion order. -/
def exportLabels (imgs : List ImageData) : List String :=
  uniqInOrder (imgs.filterMap getCustomLabel)

/-- The clip keys grouped under a label, sorted lexicographically
(`localeCompare`, modelled by the `String` order) for determinism. -/
def clipKeysFor (imgs : List ImageData) (label : String) : List String :=
  (uniqInOrder ((imgs.filter (fun img => decide (getCustomLabel img = some label))).map
    clipKeyOf)).mergeSort (fun a b => decide (a ≤ b))

/-- Model of `sortFrames`: stable sort by frame number (`?? 0`), ties broken by file
name (`localeCompare`, modelled by the `String` order). -/
def sortFrames (frames : List ImageData) : List ImageData :=
  frames.mergeSort (fun a b =>
    decide (a.frameNumber.getD 0 < b.frameNumber.getD 0) ||
      (decide (a.frameNumber.getD 0 = b.frameNumber.getD 0) &&
        decide (a.fileName ≤ b.fileName)))

/-- The sorted frames of one `(label, clipKey)` group. -/
def framesFor (imgs : List ImageData) (label clipKey : String) : List ImageData :=
  sortFrames (imgs.filter (fun img =>
    decide (getCustomLabel img = some label) && decide (clipKeyOf img = clipKey)))

/-- All frame chunks of a label, in clip-key order, each clip's frames cut
into consecutive slices of at most `MAX_FRAMES_PER_CLIP = 200` frames
(`for (i = 0; i < frames.length; i += 200)`), paired with their clip key. -/
def labelChunks (imgs : List ImageData) (label : String) :
    List (String × List ImageData) :=
  ((clipKeysFor imgs label).map (fun k =>
    (sliceChunks 200 (((framesFor imgs label k).length + 199) / 200)
      (framesFor imgs label k)).map (fun chunk => (k, chunk)))).flatten

/-- Each of the characters `\ / : * ? " < > |` replaced by a visually similar full-width equivalent. -/
def replaceUnsafeChar (c : Char) : Char :=
  if c = '\\' then '＼'
  else if c = '/' then '／'
  else if c = ':' then '：'
  else if c = '*' then '＊'
  else if c = '?' then '？'
  else if c = '\"' then '＂'
  else if c = '<' then '＜'
  else if c = '>' then '＞'
  else if c = '|' then '｜'
  else c

/-- Model of `.replace(/\.ext$/i, "")`: strip one case-insensitive suffix. -/
def stripSuffixCI (sfx : String) (s : String) : String :=
  if s.toLower.endsWith sfx then s.dropRight sfx.length else s

/-- Model of `toSafePathSegment` (ImageAnnotator.tsx, lines 1553–1569): trim, replace
the filesystem-unsafe characters and strip a trailing video extension.
(`@[irreducible]` only to keep the elaborator from diverging into the byte-level
`String` primitives; the kernel still evaluates it on closed inputs.) -/
@[irreducible] def toSafePathSegment (name : String) : String :=
  stripSuffixCI ".webm" (stripSuffixCI ".mkv" (stripSuffixCI ".mov"
    (stripSuffixCI ".avi" (stripSuffixCI ".mp4"
      ((name.trim.data.map replaceUnsafeChar).asString)))))

/-- One emitted per-frame JSON descriptor (`frameData`), reduced to the fields
the spec constrains, plus the generated base file name. -/
structure FrameOut where
  baseName : String
  activityLabel : String
  sourceClip : String
  frameNumber : Option ℕ
deriving DecidableEq

/-- One numbered output clip folder of the export manifest. -/
structure ClipFolder where
  label : String
  safeLabel : String
  clipNumber : ℕ
  folderName : String
  sourceClip : String
  frames : List FrameOut
deriving DecidableEq

/-- The clip folders emitted for one label, ordinals ascending from
`offset + 1` in chunk order; each folder's frame files restart at
`frames00001`. -/
def foldersFor (imgs : List ImageData) (label : String) (offset : ℕ) :
    List ClipFolder :=
  (labelChunks imgs label).mapIdx (fun t kc =>
    { label := label,
      safeLabel := toSafePathSegment label,
      clipNumber := offset + t + 1,
      folderName := toSafePathSegment (toSafePathSegment label ++ padNum 2 (offset + t + 1)),
      sourceClip := kc.1,
      frames := kc.2.mapIdx (fun j img =>
        { baseName := "frames" ++ padNum 5 (j + 1),
          activityLabel := label,
          sourceClip := kc.1,
          frameNumber := img.frameNumber }) })

inductive ExportError where
  | NothingToExport
deriving DecidableEq

/-- Model of `handleExportAnnotatedClips` (ImageAnnotator.tsx, lines 1533–1780) as a
pure function: filter the frames, fail with `NothingToExport` when none
qualify, group by label and clip, number each label's chunk folders from its
persisted counter + 1, and return the folder manifest together with the
updated counters (`counter += number of new clip folders for that label`). -/
def handleExportAnnotatedClips (images : List ImageData) (exportOnlyLabeled : Bool)
    (labelClipCounters : String → ℕ) :
    Except ExportError (List ClipFolder × (String → ℕ)) :=
  if (imagesToExport images exportOnlyLabeled).isEmpty then
    Except.error ExportError.NothingToExport
  else
    Except.ok
      (((exportLabels (imagesToExport images exportOnlyLabeled)).map
          (fun L => foldersFor (imagesToExport images exportOnlyLabeled) L
            (labelClipCounters L))).flatten,
        (exportLabels (imagesToExport images exportOnlyLabeled)).foldl
          (fun cnt L => Function.update cnt L
            (cnt L + (labelChunks (imagesToExport images exportOnlyLabeled) L).length))
          labelClipCounters)

/-- The persisted counters after an export attempt: `setLabelClipCounters` runs
only on the success path, so a failed export leaves the registry untouched. -/
def countersAfterExport (images : List ImageData) (exportOnlyLabeled : Bool)
    (labelClipCounters : String → ℕ) : String → ℕ :=
  match handleExportAnnotatedClips images exportOnlyLabeled labelClipCounters with
  | Except.error _ => labelClipCounters
  | Except.ok r => r.2

/-- The folder manifest of an export attempt (empty on failure). -/
def exportFolders (images : List ImageData) (exportOnlyLabeled : Bool)
    (labelClipCounters : String → ℕ) : List ClipFolder :=
  match handleExportAnnotatedClips images exportOnlyLabeled labelClipCounters with
  | Except.error _ => []
  | Except.ok r => r.1

theorem le_jsMax_left (a b : ℚ) : a ≤ jsMax a b := by
  unfold jsMax; split
  · assumption
  · exact le_refl a

theorem jsMin_le_right (a b : ℚ) : jsMin a b ≤ b := by
  unfold jsMin; split
  · assumption
  · exact le_refl b

theorem jsMin_le_left (a b : ℚ) : jsMin a b ≤ a := by
  unfold jsMin; split
  · exact le_refl a
  · exact le_of_not_le (by assumption)

/-- C5: every detection returned by the Detector Adapter, after padding
expansion and clamping, lies inside the image, has positive extent, and has
confidence at least the supplied threshold. -/
theorem detectObjects_bounds (imgW imgH threshold boundingBoxPadding : ℚ)
    (preds : List Prediction) (d : Detection)
    (hd : d ∈ detectObjects imgW imgH threshold boundingBoxPadding preds) :
    0 ≤ d.x ∧ 0 ≤ d.y ∧ d.x + d.width ≤ imgW ∧ d.y + d.height ≤ imgH ∧
      0 < d.width ∧ 0 < d.height ∧ threshold ≤ d.confidence := by
  unfold detectObjects at hd
  rw [List.mem_filter] at hd
  obtain ⟨hmem, hpos⟩ := hd
  rw [Bool.and_eq_true, decide_eq_true_eq, decide_eq_true_eq] at hpos
  obtain ⟨hw, hh⟩ := hpos
  rw [List.mem_map] at hmem
  obtain ⟨p, hp, rfl⟩ := hmem
  rw [List.mem_filter, decide_eq_true_eq] at hp
  obtain ⟨-, hscore⟩ := hp
  simp only
  refine ⟨le_jsMax_left _ _, le_jsMax_left _ _, ?_, ?_, hw, hh, hscore⟩
  · have h1 : jsMin (p.bboxW + p.bboxW * (boundingBoxPadding / 100) * 2)
        (imgW - jsMax 0 (p.bboxX - p.bboxW * (boundingBoxPadding / 100))) ≤
        imgW - jsMax 0 (p.bboxX - p.bboxW * (boundingBoxPadding / 100)) :=
      jsMin_le_right _ _
    linarith
  · have h2 : jsMin p.bboxH (imgH - jsMax 0 p.bboxY) ≤ imgH - jsMax 0 p.bboxY :=
      jsMin_le_right _ _
    linarith

/-- Witness for C5 at a concrete prediction list: the single raw box
`(10,10,20,30)` with score 0.9 on a 100×100 image, 15% padding, becomes the
detection `(7,10,26,30)` labelled "Person", and satisfies all the bounds. -/
theorem detectObjects_bounds_witness :
    (⟨7, 10, 26, 30, "Person", 9/10⟩ : Detection) ∈
      detectObjects 100 100 (1/2) 15 [⟨10, 10, 20, 30, "person", 9/10⟩] ∧
    (0 ≤ (7 : ℚ) ∧ 0 ≤ (10 : ℚ) ∧ (7 : ℚ) + 26 ≤ 100 ∧ (10 : ℚ) + 30 ≤ 100 ∧
      0 < (26 : ℚ) ∧ 0 < (30 : ℚ) ∧ (1/2 : ℚ) ≤ 9/10) :=
  ⟨by decide!,
    detectObjects_bounds 100 100 (1/2) 15 [⟨10, 10, 20, 30, "person", 9/10⟩]
      ⟨7, 10, 26, 30, "Person", 9/10⟩ (by decide!)⟩

theorem findSome?_label_spec (dets : List Detection) (l : String)
    (h : dets.findSome? (fun det =>
      if det.label.trim ≠ "" ∧ cocoLabels.contains det.label.trim.toLower = false then
        some det.label.trim
      else none) = some l) :
    l ≠ "" ∧ cocoLabels.contains l.toLower = false := by
  obtain ⟨det, -, hdet⟩ := List.exists_of_findSome?_eq_some h
  by_cases hc : det.label.trim ≠ "" ∧ cocoLabels.contains det.label.trim.toLower = false
  · rw [if_pos hc, Option.some.injEq] at hdet
    subst hdet
    exact hc
  · rw [if_neg hc] at hdet
    exact absurd hdet Option.noConfusion

/-- C10: when a frame has no (trim-non-empty) explicit activity label, the
fallback never selects a detection label that lowercases into the COCO class
denylist — in particular the capitalized class names emitted by the Detector
Adapter, such as "Person", are never chosen; any label it does pick is
non-empty and outside the 80-class list. -/
theorem getCustomLabel_fallback_excludes_coco (img : ImageData)
    (hact : (img.activityLabel.getD "").trim = "") (l : String)
    (hl : getCustomLabel img = some l) :
    l ≠ "" ∧ cocoLabels.contains l.toLower = false := by
  unfold getCustomLabel at hl
  rw [hact] at hl
  simp only [if_pos rfl] at hl
  exact findSome?_label_spec img.detections l hl

/-- Witness for C10: a frame whose detections are a capitalized detector box
"Person" followed by the operator label "Welding" falls back to "Welding",
skipping the detector class in its capitalized form. -/
theorem getCustomLabel_fallback_excludes_coco_witness :
    ((((⟨"f", [⟨0, 0, 1, 1, "Person", 1⟩, ⟨0, 0, 1, 1, "Welding", 1⟩], none, none,
        none⟩ : ImageData)).activityLabel.getD "").trim = "") ∧
    (getCustomLabel ⟨"f", [⟨0, 0, 1, 1, "Person", 1⟩, ⟨0, 0, 1, 1, "Welding", 1⟩],
        none, none, none⟩ = some "Welding") ∧
    ("Welding" ≠ "" ∧ cocoLabels.contains "Welding".toLower = false) :=
  ⟨by decide!, by decide!,
    getCustomLabel_fallback_excludes_coco
      ⟨"f", [⟨0, 0, 1, 1, "Person", 1⟩, ⟨0, 0, 1, 1, "Welding", 1⟩], none, none, none⟩
      (by decide!) "Welding" (by decide!)⟩

/-- C9: `applyQuickLabel` is idempotent — applying the same label twice to the
same store state yields exactly the state obtained by applying it once
(frame list, per-detection labels and review-marked set included). -/
theorem applyQuickLabel_idem (label : String) (st : AnnotatorState) :
    applyQuickLabel label (applyQuickLabel label st) = applyQuickLabel label st := by
  unfold applyQuickLabel
  cases h : st.images[st.currentIndex]? with
  | none => simp [h]
  | some img =>
    have hlt : st.currentIndex < st.images.length := by
      rcases List.getElem?_eq_some_iff.mp h with ⟨hl, -⟩
      exact hl
    simp only [h]
    have hget : (st.images.set st.currentIndex
        { img with
          activityLabel := some label,
          detections := img.detections.map (fun d => { d with label := label }) })[st.currentIndex]? =
        some { img with
          activityLabel := some label,
          detections := img.detections.map (fun d => { d with label := label }) } := by
      rw [List.getElem?_set_self]
      · exact hlt
    simp only [hget]
    congr 1
    · rw [List.set_set]
      congr 2
      rw [List.map_map]
      congr 1
    · exact Finset.erase_idem

/-- Counterexample to C7: a 130-second video at a 1-second interval with 32
frames per clip yields clip sizes `[32, 32, 32, 32, 3]` — the final partial
clip has 3 frames (times 128, 129 and 130, since sampling continues while
`currentTime ≤ duration`), not the 2 frames the claim states. -/
theorem createClipsFromVideo_130s_counterexample :
    (createClipsFromVideo "video" 130 1 32).map (fun c => c.frames.length) =
      [32, 32, 32, 32, 3] ∧
    ([32, 32, 32, 32, 3] : List ℕ) ≠ [32, 32, 32, 32, 2] := by decide!

/-- C7 (amended): a 130-second video sampled at a 1-second interval with 32
frames per clip yields exactly 5 clips — 4 full clips of 32 frames and one
final partial clip of 3 frames — sampled at times 0, 1, …, 130 (the sample at
`t = duration` is included), with each clip internally numbered 1..N. -/
theorem createClipsFromVideo_130s_amended :
    (createClipsFromVideo "video" 130 1 32).length = 5 ∧
    (createClipsFromVideo "video" 130 1 32).map (fun c => c.frames.length) =
      [32, 32, 32, 32, 3] ∧
    (createClipsFromVideo "video" 130 1 32).map
        (fun c => c.frames.map (fun f => f.frameNumber)) =
      [List.range' 1 32, List.range' 1 32, List.range' 1 32, List.range' 1 32,
        List.range' 1 3] ∧
    ((createClipsFromVideo "video" 130 1 32).map (fun c => c.frames.map
        (fun f => f.time))).flatten = (List.range 131).map (fun n => (n : ℚ)) := by decide!

/-- Counterexample to C4 as stated: a frame whose `activityLabel` is the
whitespace string " " — set and non-empty — is not treated as labelled by
`handleRedetect` (the code tests the *trimmed* label), so the freshly detected
person box keeps the generic class name "Person" instead of carrying the
activity label. -/
theorem handleRedetect_counterexample :
    ((some " " : Option String).getD "") ≠ "" ∧
    handleRedetect (1/2) 0 (fun _ => ⟨100, 100, [⟨10, 10, 20, 30, "person", 1⟩]⟩)
        [⟨"f", [], none, none, some " "⟩] =
      [⟨"f", [⟨10, 10, 20, 30, "Person", 1⟩], none, none, some " "⟩] ∧
    "Person" ≠ " " := by decide!

/-- C4 (amended): `handleRedetect` never changes a frame's `activityLabel`;
and when the frame's activity label is non-whitespace (trim-non-empty), the
stored detections are exactly the fresh detector output with every
person-class box relabelled to the trimmed activity label — so every detection
whose detector class is person carries the activity label. -/
theorem handleRedetect_spec (thr pad : ℚ) (oracle : ℕ → DetectInput)
    (images : List ImageData) (i : ℕ) (h : i < images.length) :
    ((handleRedetect thr pad oracle images)[i]?.map (fun im => im.activityLabel) =
      some (images.get ⟨i, h⟩).activityLabel) ∧
    ((((images.get ⟨i, h⟩).activityLabel.getD "").trim ≠ "" →
      (handleRedetect thr pad oracle images)[i]?.map (fun im => im.detections) =
        some ((detectObjects (oracle i).imgW (oracle i).imgH thr pad
            (oracle i).preds).map (fun d =>
          if d.label.toLower = "person"
          then { d with label := ((images.get ⟨i, h⟩).activityLabel.getD "").trim }
          else d)))) ∧
    (∀ (d : Detection) (L : String), d.label.toLower = "person" →
      ((fun d => if d.label.toLower = "person" then { d with label := L } else d) d).label
        = L) := by
  have hsome : images[i]? = some (images.get ⟨i, h⟩) := List.getElem?_eq_getElem h
  refine ⟨?_, ?_, ?_⟩
  · unfold handleRedetect
    rw [List.getElem?_mapIdx, hsome]
    rfl
  · intro htrim
    unfold handleRedetect
    rw [List.getElem?_mapIdx, hsome]
    simp only [Option.map_some']
    rw [if_neg htrim]
  · intro d L hd
    simp [hd]

/-- Witness for C4 at a concrete frame labelled "Welding": redetection keeps
the activity label and relabels the fresh person box to "Welding". -/
theorem handleRedetect_spec_witness :
    ((handleRedetect (1/2) 0 (fun _ => ⟨100, 100, [⟨10, 10, 20, 30, "person", 1⟩]⟩)
        [⟨"f", [], none, none, some "Welding"⟩])[0]?.map (fun im => im.activityLabel) =
      some (some "Welding")) ∧
    ((handleRedetect (1/2) 0 (fun _ => ⟨100, 100, [⟨10, 10, 20, 30, "person", 1⟩]⟩)
        [⟨"f", [], none, none, some "Welding"⟩])[0]?.map (fun im => im.detections) =
      some [⟨10, 10, 20, 30, "Welding", 1⟩]) :=
  ⟨(handleRedetect_spec (1/2) 0 (fun _ => ⟨100, 100, [⟨10, 10, 20, 30, "person", 1⟩]⟩)
      [⟨"f", [], none, none, some "Welding"⟩] 0 (by decide!)).1,
   by
    rw [(handleRedetect_spec (1/2) 0 (fun _ => ⟨100, 100, [⟨10, 10, 20, 30, "person", 1⟩]⟩)
      [⟨"f", [], none, none, some "Welding"⟩] 0 (by decide!)).2.1 (by decide!)]
    decide!⟩

theorem processChunkFrames_cons (b : Bool) (thr : ℚ) (c : ChunkFrame)
    (rest : List ChunkFrame) (k : ℕ) :
    processChunkFrames b thr (c :: rest) k =
      if c.frame.detections.isEmpty then processChunkFrames b thr rest k
      else (c :: (processChunkFrames b thr rest (k + 1)).1,
        (if b && allBlurry c thr then [k] else []) ++
          (processChunkFrames b thr rest (k + 1)).2) := rfl

theorem processChunkFrames_fst (b : Bool) (thr : ℚ) (cands : List ChunkFrame) (k : ℕ) :
    (processChunkFrames b thr cands k).1 =
      cands.filter (fun c => !c.frame.detections.isEmpty) := by
  induction cands generalizing k with
  | nil => rfl
  | cons c rest ih =>
    rw [processChunkFrames_cons]
    by_cases hc : c.frame.detections.isEmpty
    · rw [if_pos hc, ih, List.filter_cons, if_neg (by simp [hc])]
    · rw [if_neg hc]
      show c :: (processChunkFrames b thr rest (k + 1)).1 =
        List.filter (fun c => !c.frame.detections.isEmpty) (c :: rest)
      rw [ih, List.filter_cons, if_pos (by simp [hc])]

theorem processChunkFrames_mem_snd (b : Bool) (thr : ℚ) (cands : List ChunkFrame)
    (k i : ℕ) :
    i ∈ (processChunkFrames b thr cands k).2 ↔
      (b = true ∧ ∃ j, ∃ hj : j < (cands.filter (fun c => !c.frame.detections.isEmpty)).length,
        i = k + j ∧
        allBlurry ((cands.filter (fun c => !c.frame.detections.isEmpty)).get ⟨j, hj⟩) thr
          = true) := by
  induction cands generalizing k with
  | nil => simp [processChunkFrames]
  | cons c rest ih =>
    rw [processChunkFrames_cons]
    by_cases hc : c.frame.detections.isEmpty
    · have hfil : (c :: rest).filter (fun c => !c.frame.detections.isEmpty) =
          rest.filter (fun c => !c.frame.detections.isEmpty) := by
        rw [List.filter_cons, if_neg (by simp [hc])]
      rw [if_pos hc, ih, hfil]
    · have hfil : (c :: rest).filter (fun c => !c.frame.detections.isEmpty) =
          c :: rest.filter (fun c => !c.frame.detections.isEmpty) := by
        rw [List.filter_cons, if_pos (by simp [hc])]
      rw [if_neg hc]
      show i ∈ (if b && allBlurry c thr then [k] else []) ++
          (processChunkFrames b thr rest (k + 1)).2 ↔ _
      rw [List.mem_append, ih, hfil]
      constructor
      · rintro (hk | ⟨hb, j, hj, rfl, hall⟩)
        · by_cases hcond : (b && allBlurry c thr) = true
          · rw [if_pos hcond] at hk
            rcases List.mem_singleton.mp hk with rfl
            rcases (by simpa using hcond : b = true ∧ allBlurry c thr = true) with ⟨hb, hall⟩
            exact ⟨hb, 0, by simp, by omega, hall⟩
          · rw [if_neg hcond] at hk
            cases hk
        · refine ⟨hb, j + 1, by simpa using Nat.succ_lt_succ hj, by omega, ?_⟩
          simpa using hall
      · rintro ⟨hb, j, hj, rfl, hall⟩
        cases j with
        | zero =>
          left
          have hall0 : allBlurry c thr = true := by simpa using hall
          rw [if_pos (by rw [hb, hall0]; rfl)]
          simp
        | succ j' =>
          right
          refine ⟨hb, j', by simpa using Nat.lt_of_succ_lt_succ hj, by omega, ?_⟩
          simpa using hall

theorem detectMotionBlur_degenerate (canvas : Canvas) (det : Detection)
    (hdeg : jsMinI ⌊det.width⌋ ((canvas.width : ℤ) - jsMaxI 0 ⌊det.x⌋) ≤ 2 ∨
      jsMinI ⌊det.height⌋ ((canvas.height : ℤ) - jsMaxI 0 ⌊det.y⌋) ≤ 2) :
    detectMotionBlur canvas det = 999 := by
  unfold detectMotionBlur
  by_cases hz : jsMinI ⌊det.width⌋ ((canvas.width : ℤ) - jsMaxI 0 ⌊det.x⌋) ≤ 0 ∨
      jsMinI ⌊det.height⌋ ((canvas.height : ℤ) - jsMaxI 0 ⌊det.y⌋) ≤ 0
  · rw [if_pos hz]
  · rw [if_neg hz]
    have hempty : ((jsMinI ⌊det.width⌋ ((canvas.width : ℤ) - jsMaxI 0 ⌊det.x⌋)).toNat - 2 = 0)
        ∨ ((jsMinI ⌊det.height⌋ ((canvas.height : ℤ) - jsMaxI 0 ⌊det.y⌋)).toNat - 2 = 0) := by
      rcases hdeg with hw | hh
      · exact Or.inl (by omega)
      · exact Or.inr (by omega)
    rcases hempty with hw | hh
    · rw [if_pos ?_]
      simp only [List.length_eq_zero, List.flatten_eq_nil_iff]
      intro l hl
      rw [List.mem_map] at hl
      obtain ⟨r, -, rfl⟩ := hl
      rw [hw]
      rfl
    · rw [if_pos ?_]
      simp only [List.length_eq_zero, List.flatten_eq_nil_iff]
      intro l hl
      rw [List.mem_map] at hl
      obtain ⟨r, hr, rfl⟩ := hl
      rw [hh] at hr
      cases hr

/-- C6: with motion-blur filtering enabled, (i) the kept frames are exactly
the candidates with at least one person detection — independent of the filter
flag, so a flagged frame is marked but never removed from the store; (ii) an
index is flagged as likely blurred iff it indexes a kept frame all of whose
person detections score strictly below the threshold (one sharp detection
suppresses the flag); (iii) a detection region that clamps to zero extent or
has no interior pixels scores the sentinel 999 and therefore counts as sharp
for any threshold ≤ 999. -/
theorem motionBlur_flag_policy (blurThreshold : ℚ) (cands : List ChunkFrame) :
    (∀ b : Bool, (processChunkFrames b blurThreshold cands 0).1 =
      cands.filter (fun c => !c.frame.detections.isEmpty)) ∧
    (∀ i : ℕ, i ∈ (processChunkFrames true blurThreshold cands 0).2 ↔
      ∃ hj : i < (cands.filter (fun c => !c.frame.detections.isEmpty)).length,
        allBlurry ((cands.filter (fun c => !c.frame.detections.isEmpty)).get ⟨i, hj⟩)
          blurThreshold = true) ∧
    (∀ (canvas : Canvas) (det : Detection),
      (jsMinI ⌊det.width⌋ ((canvas.width : ℤ) - jsMaxI 0 ⌊det.x⌋) ≤ 2 ∨
        jsMinI ⌊det.height⌋ ((canvas.height : ℤ) - jsMaxI 0 ⌊det.y⌋) ≤ 2) →
      detectMotionBlur canvas det = 999 ∧
        (blurThreshold ≤ 999 → ¬ detectMotionBlur canvas det < blurThreshold)) := by
  refine ⟨fun b => processChunkFrames_fst b blurThreshold cands 0, fun i => ?_, ?_⟩
  · rw [processChunkFrames_mem_snd]
    constructor
    · rintro ⟨-, j, hj, rfl, hall⟩
      exact ⟨by simpa using hj, by simpa using hall⟩
    · rintro ⟨hj, hall⟩
      exact ⟨rfl, i, hj, by omega, hall⟩
  · intro canvas det hdeg
    have h999 := detectMotionBlur_degenerate canvas det hdeg
    refine ⟨h999, fun hle => ?_⟩
    rw [h999]
    exact not_lt_of_le hle

/-- Witness for C6: a single kept frame with one person detection on a
constant-colour canvas (Laplacian variance 0 < 100) is flagged at index 0 but
still stored; and a zero-width region scores the sentinel 999. -/
theorem motionBlur_flag_policy_witness :
    (0 ∈ (processChunkFrames true 100
        [⟨⟨10, 10, fun _ _ => (0, 0, 0)⟩, ⟨"f", [⟨0, 0, 5, 5, "Person", 9/10⟩],
          none, none, none⟩⟩] 0).2) ∧
    ((processChunkFrames true 100
        [⟨⟨10, 10, fun _ _ => (0, 0, 0)⟩, ⟨"f", [⟨0, 0, 5, 5, "Person", 9/10⟩],
          none, none, none⟩⟩] 0).1 =
      [⟨⟨10, 10, fun _ _ => (0, 0, 0)⟩, ⟨"f", [⟨0, 0, 5, 5, "Person", 9/10⟩],
          none, none, none⟩⟩]) ∧
    detectMotionBlur ⟨10, 10, fun _ _ => (0, 0, 0)⟩ ⟨0, 0, 0, 5, "Person", 1⟩ = 999 := by
  refine ⟨?_, ?_, ?_⟩
  · exact ((motionBlur_flag_policy 100
      [⟨⟨10, 10, fun _ _ => (0, 0, 0)⟩, ⟨"f", [⟨0, 0, 5, 5, "Person", 9/10⟩],
        none, none, none⟩⟩]).2.1 0).mpr ⟨by decide!, by decide!⟩
  · rw [(motionBlur_flag_policy 100
      [⟨⟨10, 10, fun _ _ => (0, 0, 0)⟩, ⟨"f", [⟨0, 0, 5, 5, "Person", 9/10⟩],
        none, none, none⟩⟩]).1 true]
    rfl
  · exact ((motionBlur_flag_policy 100 []).2.2 ⟨10, 10, fun _ _ => (0, 0, 0)⟩
      ⟨0, 0, 0, 5, "Person", 1⟩ (Or.inl (by decide!))).1

theorem digitsRec_lt {n : ℕ} (h : n < 10) : digitsRec n = [Nat.digitChar n] := by
  rw [digitsRec, dif_pos h]

theorem digitsRec_ge {n : ℕ} (h : ¬ n < 10) :
    digitsRec n = digitsRec (n / 10) ++ [Nat.digitChar (n % 10)] := by
  rw [digitsRec]
  rw [dif_neg h]

theorem digitsRec_ne_nil (n : ℕ) : digitsRec n ≠ [] := by
  rw [digitsRec]
  split
  · simp
  · simp

theorem toDigitsCore_eq_digitsRec (fuel n : ℕ) (acc : List Char) (h : n < fuel) :
    Nat.toDigitsCore 10 fuel n acc = digitsRec n ++ acc := by
  induction fuel generalizing n acc with
  | zero => omega
  | succ fuel ih =>
    have hstep : Nat.toDigitsCore 10 (fuel + 1) n acc =
        if n / 10 = 0 then Nat.digitChar (n % 10) :: acc
        else Nat.toDigitsCore 10 fuel (n / 10) (Nat.digitChar (n % 10) :: acc) := rfl
    rw [hstep]
    by_cases h0 : n / 10 = 0
    · rw [if_pos h0]
      have hn : n < 10 := by omega
      rw [digitsRec, dif_pos hn, Nat.mod_eq_of_lt hn]
      rfl
    · rw [if_neg h0]
      have hlt : n / 10 < fuel := by omega
      rw [ih (n / 10) _ hlt]
      conv_rhs => rw [digitsRec]
      rw [dif_neg (by omega : ¬ n < 10), List.append_assoc]
      rfl

theorem repr_eq_digitsRec (n : ℕ) : Nat.repr n = (digitsRec n).asString := by
  show (Nat.toDigitsCore 10 (n + 1) n []).asString = _
  rw [toDigitsCore_eq_digitsRec (n + 1) n [] (Nat.lt_succ_self n), List.append_nil]

theorem digitChar_inj_lt10 : ∀ x < 10, ∀ y < 10,
    Nat.digitChar x = Nat.digitChar y → x = y := by decide

theorem digitsRec_injective : ∀ n m : ℕ, digitsRec n = digitsRec m → n = m := by
  intro n
  induction n using Nat.strong_induction_on with
  | _ n ih =>
    intro m h
    by_cases hn : n < 10 <;> by_cases hm : m < 10
    · rw [digitsRec_lt hn, digitsRec_lt hm] at h
      exact digitChar_inj_lt10 n hn m hm (by injection h)
    · exfalso
      rw [digitsRec_lt hn, digitsRec_ge hm] at h
      have hpos : 0 < (digitsRec (m / 10)).length :=
        List.length_pos.mpr (digitsRec_ne_nil _)
      have hlen : (1 : ℕ) = (digitsRec (m / 10)).length + 1 := by
        have := congrArg List.length h
        simpa [List.length_append] using this
      omega
    · exfalso
      rw [digitsRec_ge hn, digitsRec_lt hm] at h
      have hpos : 0 < (digitsRec (n / 10)).length :=
        List.length_pos.mpr (digitsRec_ne_nil _)
      have hlen : (digitsRec (n / 10)).length + 1 = (1 : ℕ) := by
        have := congrArg List.length h
        simpa [List.length_append] using this
      omega
    · rw [digitsRec_ge hn, digitsRec_ge hm] at h
      obtain ⟨h1, h2⟩ := List.append_inj' h rfl
      have hdiv : n / 10 = m / 10 :=
        ih (n / 10) (Nat.div_lt_self (by omega) (by omega)) (m / 10) h1
      have hmod : n % 10 = m % 10 :=
        digitChar_inj_lt10 (n % 10) (Nat.mod_lt _ (by omega)) (m % 10)
          (Nat.mod_lt _ (by omega)) (by injection h2)
      omega

theorem natRepr_injective : Function.Injective Nat.repr := by
  intro a b h
  rw [repr_eq_digitsRec, repr_eq_digitsRec] at h
  have hdata : digitsRec a = digitsRec b := congrArg String.data h
  exact digitsRec_injective a b hdata

theorem sliceChunks_flatten (cs m : ℕ) (l : List α) (h : l.length ≤ m * cs) :
    (sliceChunks cs m l).flatten = l := by
  induction m generalizing l with
  | zero =>
    have hl : l = [] := List.eq_nil_of_length_eq_zero (by omega)
    subst hl
    rfl
  | succ m ih =>
    unfold sliceChunks
    rw [List.range_succ_eq_map, List.map_cons, List.flatten_cons, List.map_map]
    have hcomp : ((fun k => (l.drop (k * cs)).take cs) ∘ Nat.succ) =
        (fun k => ((l.drop cs).drop (k * cs)).take cs) := by
      funext k
      simp only [Function.comp_apply]
      rw [List.drop_drop]
      congr 2
      rw [Nat.succ_mul]
      ring
    rw [hcomp]
    have hrest : (List.range m).map (fun k => ((l.drop cs).drop (k * cs)).take cs) =
        sliceChunks cs m (l.drop cs) := rfl
    have hlen : (l.drop cs).length ≤ m * cs := by
      have h' : l.length ≤ m * cs + cs := by
        have : (m + 1) * cs = m * cs + cs := by ring
        omega
      simp only [List.length_drop]
      omega
    rw [hrest, ih (l.drop cs) hlen, Nat.zero_mul, List.drop_zero]
    exact List.take_append_drop cs l

theorem sliceChunks_map_length (cs m : ℕ) (l : List α) :
    (sliceChunks cs m l).map List.length =
      (List.range m).map (fun k => min cs (l.length - k * cs)) := by
  unfold sliceChunks
  rw [List.map_map]
  apply List.map_congr_left
  intro k _
  simp [List.length_take, List.length_drop]

theorem mapIdx_renumber_frameNumbers (l : List ClipFrame) :
    ((l.mapIdx (fun idx f => { f with frameNumber := idx + 1 })).map
      (fun f => f.frameNumber)) = List.range' 1 l.length := by
  rw [List.mapIdx_eq_enum_map, List.map_map]
  have h1 : ((fun f => f.frameNumber) ∘
      Function.uncurry fun idx f => ({ f with frameNumber := idx + 1 } : ClipFrame)) =
      ((fun k => k + 1) ∘ (Prod.fst : ℕ × ClipFrame → ℕ)) := rfl
  rw [h1, ← List.map_map, List.enum_map_fst, List.range'_eq_map_range]
  apply List.map_congr_left
  intro a _
  omega

theorem mapIdx_renumber_payload (l : List ClipFrame) :
    ((l.mapIdx (fun idx f => { f with frameNumber := idx + 1 })).map
      (fun f => (f.fileName, f.time))) = l.map (fun f => (f.fileName, f.time)) := by
  rw [List.mapIdx_eq_enum_map, List.map_map]
  have h1 : ((fun f => (f.fileName, f.time)) ∘
      Function.uncurry fun idx f => ({ f with frameNumber := idx + 1 } : ClipFrame)) =
      ((fun f => (f.fileName, f.time)) ∘ (Prod.snd : ℕ × ClipFrame → ClipFrame)) := rfl
  rw [h1, ← List.map_map, List.enum_map_snd]

theorem range_map_min_sizes (cs m n : ℕ) (hm : 2 ≤ m)
    (hfull : ∀ k, k < m - 1 → cs ≤ n - k * cs)
    (hlast : n - (m - 1) * cs ≤ cs) :
    (List.range m).map (fun k => min cs (n - k * cs)) =
      List.replicate (m - 1) cs ++ [n - (m - 1) * cs] := by
  apply List.ext_getElem
  · simp
    omega
  · intro i h1 h2
    rw [List.getElem_map, List.getElem_range]
    by_cases hi : i < m - 1
    · rw [List.getElem_append_left (by simpa using hi)]
      rw [List.getElem_replicate]
      exact min_eq_left (hfull i hi)
    · have hieq : i = m - 1 := by
        rw [List.length_map, List.length_range] at h1
        omega
      subst hieq
      rw [List.getElem_append_right (by simp)]
      simp only [List.length_replicate, Nat.sub_self, List.getElem_cons_zero]
      exact min_eq_right hlast

/-- C3: a clip of `n > 200` frames splits into `m = ⌈n/200⌉` parts — the
minimum number with every part within the cap (`n ≤ 200·m` and
`200·(m−1) < n`) — of sizes `⌈n/m⌉` except a final remainder in `[1, ⌈n/m⌉]`
(all sizes ≤ 200); each part's frame numbers are the contiguous run `1..N`;
the concatenation of the parts' frames in part order is the original frame
sequence; and the parts carry pairwise distinct names suffixed `part1..partm`. -/
theorem splitMarkerClip_spec (base video : String) (allFrames : List ClipFrame)
    (n m cs : ℕ) (hn : n = allFrames.length) (hcap : 200 < n)
    (hm : m = (n + 199) / 200) (hcs : cs = (n + m - 1) / m) :
    (splitMarkerClip base video allFrames).length = m ∧
    (n ≤ m * 200 ∧ 200 * (m - 1) < n) ∧
    (splitMarkerClip base video allFrames).map (fun c => c.frames.length) =
      List.replicate (m - 1) cs ++ [n - (m - 1) * cs] ∧
    (1 ≤ n - (m - 1) * cs ∧ n - (m - 1) * cs ≤ cs ∧ cs ≤ 200) ∧
    (splitMarkerClip base video allFrames).map
        (fun c => c.frames.map (fun f => f.frameNumber)) =
      (splitMarkerClip base video allFrames).map
        (fun c => List.range' 1 c.frames.length) ∧
    ((splitMarkerClip base video allFrames).map
        (fun c => c.frames.map (fun f => (f.fileName, f.time)))).flatten =
      allFrames.map (fun f => (f.fileName, f.time)) ∧
    (splitMarkerClip base video allFrames).map (fun c => c.name) =
      (List.range m).map (fun k => base ++ "part" ++ Nat.repr (k + 1)) ∧
    ((splitMarkerClip base video allFrames).map (fun c => c.name)).Nodup := by
  subst hn
  -- arithmetic facts about m and cs
  have hm2 : 2 ≤ m := by omega
  have hm0 : 0 < m := by omega
  have hmub : allFrames.length ≤ 200 * m := by omega
  have hmlb : 200 * (m - 1) < allFrames.length := by omega
  have hcsle : cs ≤ 200 := by
    have hdivlt : (allFrames.length + m - 1) / m < 201 := by
      rw [Nat.div_lt_iff_lt_mul hm0]
      have h1 : 201 * m = 200 * m + m := by ring
      omega
    omega
  have hnlecsm : allFrames.length ≤ cs * m := by
    have hdm := Nat.div_add_mod (allFrames.length + m - 1) m
    have hmodlt : (allFrames.length + m - 1) % m < m := Nat.mod_lt _ hm0
    have hstep : allFrames.length ≤ m * ((allFrames.length + m - 1) / m) := by omega
    rw [← hcs, Nat.mul_comm] at hstep
    exact hstep
  have hlt : (m - 1) * cs < allFrames.length := by
    have h3 : (m - 1) * cs ≤ (m - 1) * 200 := Nat.mul_le_mul_left _ hcsle
    have h4 : (m - 1) * 200 = 200 * (m - 1) := Nat.mul_comm _ _
    omega
  have hfull : ∀ k, k < m - 1 → cs ≤ allFrames.length - k * cs := by
    intro k hk
    have h1 : (k + 1) * cs ≤ (m - 1) * cs := Nat.mul_le_mul_right cs (by omega)
    have h5 : (k + 1) * cs = k * cs + cs := by ring
    omega
  have hlast : allFrames.length - (m - 1) * cs ≤ cs := by
    have h6 : cs * m = cs * (m - 1) + cs := by
      have h7 : m - 1 + 1 = m := by omega
      calc cs * m = cs * (m - 1 + 1) := by rw [h7]
        _ = cs * (m - 1) + cs := by ring
    have h8 : cs * (m - 1) = (m - 1) * cs := Nat.mul_comm _ _
    omega
  -- unfold the split into its else branch
  have hsplit : splitMarkerClip base video allFrames =
      (List.range m).map (mkSplitPart base video cs allFrames) := by
    unfold splitMarkerClip MAX_FRAMES_PER_CLIP
    rw [if_neg (by omega)]
    have h199 : allFrames.length + 200 - 1 = allFrames.length + 199 := by omega
    simp only [h199]
    rw [← hm, ← hcs]
  have hnames : (splitMarkerClip base video allFrames).map (fun c => c.name) =
      (List.range m).map (fun k => base ++ "part" ++ Nat.repr (k + 1)) := by
    rw [hsplit, List.map_map]
    rfl
  refine ⟨?_, ⟨by omega, by omega⟩, ?_, ⟨by omega, hlast, hcsle⟩, ?_, ?_, hnames, ?_⟩
  · rw [hsplit]
    simp
  · rw [hsplit, List.map_map,
      ← range_map_min_sizes cs m allFrames.length hm2 hfull hlast]
    apply List.map_congr_left
    intro k _
    simp [mkSplitPart, List.length_take, List.length_drop]
  · rw [hsplit, List.map_map, List.map_map]
    apply List.map_congr_left
    intro k _
    simp only [Function.comp_apply, mkSplitPart]
    rw [mapIdx_renumber_frameNumbers]
    congr 1
    simp
  · rw [hsplit, List.map_map]
    have hcompose : ((fun c : ClipData => c.frames.map (fun f => (f.fileName, f.time))) ∘
        mkSplitPart base video cs allFrames) =
        (fun k => ((allFrames.drop (k * cs)).take cs).map
          (fun f => (f.fileName, f.time))) := by
      funext k
      simp only [Function.comp_apply, mkSplitPart]
      exact mapIdx_renumber_payload _
    rw [hcompose]
    have hslices : (List.range m).map
        (fun k => ((allFrames.drop (k * cs)).take cs).map
          (fun f => (f.fileName, f.time))) =
        (sliceChunks cs m allFrames).map (List.map (fun f => (f.fileName, f.time))) := by
      unfold sliceChunks
      rw [List.map_map]
      rfl
    rw [hslices, ← List.map_flatten,
      sliceChunks_flatten cs m allFrames (by rw [Nat.mul_comm] at hnlecsm; exact hnlecsm)]
  · rw [hnames]
    have hinj : Function.Injective
        (fun k : ℕ => base ++ "part" ++ Nat.repr (k + 1)) := by
      intro a b hab
      have hdata := congrArg String.data hab
      simp only [String.data_append] at hdata
      have hrepr : (Nat.repr (a + 1)).data = (Nat.repr (b + 1)).data :=
        List.append_cancel_left hdata
      have hstr : Nat.repr (a + 1) = Nat.repr (b + 1) := by
        cases hra : Nat.repr (a + 1) with
        | mk da =>
          cases hrb : Nat.repr (b + 1) with
          | mk db =>
            rw [hra, hrb] at hrepr
            have hd : da = db := by simpa using hrepr
            rw [hd]
      have := natRepr_injective hstr
      omega
    exact List.Nodup.map hinj (List.nodup_range m)

/-- Witness for C3 at a concrete list of 250 frames (frame payloads are the
times 1..250): the split yields 2 parts of 125 frames each. -/
theorem splitMarkerClip_spec_witness :
    ((250 : ℕ) = ((List.range' 1 250).map
      (fun (i : ℕ) => (⟨"", (i : ℚ), i⟩ : ClipFrame))).length) ∧ (200 : ℕ) < 250 ∧
    (splitMarkerClip "clip_001_0-00" "v" ((List.range' 1 250).map
      (fun (i : ℕ) => (⟨"", (i : ℚ), i⟩ : ClipFrame)))).length = 2 ∧
    (splitMarkerClip "clip_001_0-00" "v" ((List.range' 1 250).map
        (fun (i : ℕ) => (⟨"", (i : ℚ), i⟩ : ClipFrame)))).map (fun c => c.frames.length) =
      List.replicate (2 - 1) 125 ++ [250 - (2 - 1) * 125] :=
  ⟨by decide!, by decide!,
    (splitMarkerClip_spec "clip_001_0-00" "v" _ 250 2 125 (by decide!) (by decide!)
      (by decide!) (by decide!)).1,
    (splitMarkerClip_spec "clip_001_0-00" "v" _ 250 2 125 (by decide!) (by decide!)
      (by decide!) (by decide!)).2.2.1⟩

theorem uniqInOrder_foldl_mem (l acc : List String) (x : String) :
    x ∈ l.foldl (fun acc y => if y ∈ acc then acc else acc ++ [y]) acc ↔
      x ∈ acc ∨ x ∈ l := by
  induction l generalizing acc with
  | nil => simp
  | cons a t ih =>
    rw [List.foldl_cons, ih]
    by_cases ha : a ∈ acc
    · rw [if_pos ha]
      constructor
      · rintro (h | h)
        · exact Or.inl h
        · exact Or.inr (List.mem_cons_of_mem a h)
      · rintro (h | h)
        · exact Or.inl h
        · rcases List.mem_cons.mp h with rfl | h
          · exact Or.inl ha
          · exact Or.inr h
    · rw [if_neg ha]
      constructor
      · rintro (h | h)
        · rcases List.mem_append.mp h with h | h
          · exact Or.inl h
          · exact Or.inr (List.mem_cons.mpr (Or.inl (List.mem_singleton.mp h)))
        · exact Or.inr (List.mem_cons_of_mem a h)
      · rintro (h | h)
        · exact Or.inl (List.mem_append.mpr (Or.inl h))
        · rcases List.mem_cons.mp h with rfl | h
          · exact Or.inl (List.mem_append.mpr (Or.inr (List.mem_singleton.mpr rfl)))
          · exact Or.inr h

theorem mem_uniqInOrder (l : List String) (x : String) :
    x ∈ uniqInOrder l ↔ x ∈ l := by
  unfold uniqInOrder
  rw [uniqInOrder_foldl_mem]
  simp

theorem uniqInOrder_foldl_nodup (l acc : List String) (hacc : acc.Nodup) :
    (l.foldl (fun acc y => if y ∈ acc then acc else acc ++ [y]) acc).Nodup := by
  induction l generalizing acc with
  | nil => exact hacc
  | cons a t ih =>
    rw [List.foldl_cons]
    by_cases ha : a ∈ acc
    · rw [if_pos ha]
      exact ih acc hacc
    · rw [if_neg ha]
      refine ih _ ?_
      rw [List.nodup_append]
      exact ⟨hacc, List.nodup_singleton a,
        fun x hx hx' => ha ((List.mem_singleton.mp hx') ▸ hx)⟩

theorem uniqInOrder_nodup (l : List String) : (uniqInOrder l).Nodup :=
  uniqInOrder_foldl_nodup l [] List.nodup_nil

theorem getCustomLabel_some_ne_empty (img : ImageData) (l : String)
    (h : getCustomLabel img = some l) : l ≠ "" := by
  unfold getCustomLabel at h
  by_cases hexp : ((img.activityLabel.getD "").trim) = ""
  · rw [if_pos hexp] at h
    exact (findSome?_label_spec img.detections l h).1
  · rw [if_neg hexp, Option.some.injEq] at h
    subst h
    exact hexp

theorem exportLabels_exists (imgs : List ImageData) (L : String)
    (h : L ∈ exportLabels imgs) : ∃ img ∈ imgs, getCustomLabel img = some L := by
  unfold exportLabels at h
  rw [mem_uniqInOrder] at h
  exact List.mem_filterMap.mp h

set_option maxHeartbeats 1000000 in
theorem foldersFor_mem_spec (imgs : List ImageData) (L : String) (off : ℕ)
    (folder : ClipFolder) (hf : folder ∈ foldersFor imgs L off) :
    folder.label = L ∧ folder.safeLabel = toSafePathSegment L ∧
    folder.folderName =
      toSafePathSegment (folder.safeLabel ++ padNum 2 folder.clipNumber) ∧
    ∀ f ∈ folder.frames, f.activityLabel = L := by
  unfold foldersFor at hf
  rw [List.mapIdx_eq_enum_map, List.mem_map] at hf
  obtain ⟨p, -, rfl⟩ := hf
  refine ⟨rfl, rfl, rfl, ?_⟩
  intro f hfr
  simp only [Function.uncurry] at hfr
  rw [List.mapIdx_eq_enum_map, List.mem_map] at hfr
  obtain ⟨q, -, rfl⟩ := hfr
  rfl

theorem foldersFor_map_clipNumber (imgs : List ImageData) (L : String) (off : ℕ) :
    (foldersFor imgs L off).map (fun c => c.clipNumber) =
      (List.range (labelChunks imgs L).length).map (fun t => off + t + 1) := by
  unfold foldersFor
  rw [List.mapIdx_eq_enum_map, List.map_map]
  have h1 : ((fun c : ClipFolder => c.clipNumber) ∘
      Function.uncurry fun t kc =>
        ({ label := L,
           safeLabel := toSafePathSegment L,
           clipNumber := off + t + 1,
           folderName :=
             toSafePathSegment (toSafePathSegment L ++ padNum 2 (off + t + 1)),
           sourceClip := kc.1,
           frames := kc.2.mapIdx (fun j img =>
             { baseName := "frames" ++ padNum 5 (j + 1),
               activityLabel := L,
               sourceClip := kc.1,
               frameNumber := img.frameNumber }) } : ClipFolder)) =
      ((fun t => off + t + 1) ∘ (Prod.fst : ℕ × (String × List ImageData) → ℕ)) := rfl
  rw [h1, ← List.map_map, List.enum_map_fst]

theorem foldersFor_filter_self (imgs : List ImageData) (L : String) (off : ℕ) :
    (foldersFor imgs L off).filter (fun c => decide (c.label = L)) =
      foldersFor imgs L off := by
  rw [List.filter_eq_self]
  intro c hc
  rw [decide_eq_true_eq]
  exact (foldersFor_mem_spec imgs L off c hc).1

theorem foldersFor_filter_ne (imgs : List ImageData) (L L' : String) (off : ℕ)
    (hne : L' ≠ L) :
    (foldersFor imgs L' off).filter (fun c => decide (c.label = L)) = [] := by
  rw [List.filter_eq_nil_iff]
  intro c hc
  rw [Bool.not_eq_true, decide_eq_false_iff_not]
  rw [(foldersFor_mem_spec imgs L' off c hc).1]
  exact hne

theorem filter_flatten_nil {p : ClipFolder → Bool} (ls : List (List ClipFolder))
    (h : ∀ l ∈ ls, l.filter p = []) : ls.flatten.filter p = [] := by
  induction ls with
  | nil => rfl
  | cons a t ih =>
    rw [List.flatten_cons, List.filter_append, h a (List.mem_cons_self a t),
      List.nil_append]
    exact ih (fun l hl => h l (List.mem_cons_of_mem a hl))

theorem filter_flatten_label (imgs : List ImageData) (cnt : String → ℕ) (L : String)
    (labels : List String) (hnd : labels.Nodup) (hL : L ∈ labels) :
    ((labels.map (fun l => foldersFor imgs l (cnt l))).flatten).filter
      (fun c => decide (c.label = L)) = foldersFor imgs L (cnt L) := by
  induction labels with
  | nil => cases hL
  | cons a t ih =>
    rw [List.map_cons, List.flatten_cons, List.filter_append]
    rcases List.mem_cons.mp hL with rfl | hLt
    · rw [foldersFor_filter_self]
      have hnot : ∀ l ∈ t, (foldersFor imgs l (cnt l)).filter
          (fun c => decide (c.label = L)) = [] := by
        intro l hl
        apply foldersFor_filter_ne
        intro hla
        exact (List.nodup_cons.mp hnd).1 (hla ▸ hl)
      rw [filter_flatten_nil _ (by
        intro l hl
        rw [List.mem_map] at hl
        obtain ⟨l', hl', rfl⟩ := hl
        exact hnot l' hl')]
      rw [List.append_nil]
    · have hne : a ≠ L := by
        intro h
        exact (List.nodup_cons.mp hnd).1 (h ▸ hLt)
      rw [foldersFor_filter_ne imgs L a (cnt a) hne, List.nil_append]
      exact ih (List.nodup_cons.mp hnd).2 hLt

theorem foldl_update_not_mem (labels : List String) (g : String → ℕ)
    (cnt : String → ℕ) (L : String) (hL : L ∉ labels) :
    (labels.foldl (fun c l => Function.update c l (c l + g l)) cnt) L = cnt L := by
  induction labels generalizing cnt with
  | nil => rfl
  | cons a t ih =>
    rw [List.foldl_cons]
    have hne : L ≠ a := fun h => hL (h ▸ List.mem_cons_self a t)
    rw [ih _ (fun h => hL (List.mem_cons_of_mem a h))]
    exact Function.update_noteq hne _ _

theorem foldl_update_mem (labels : List String) (g : String → ℕ)
    (cnt : String → ℕ) (L : String) (hnd : labels.Nodup) (hL : L ∈ labels) :
    (labels.foldl (fun c l => Function.update c l (c l + g l)) cnt) L =
      cnt L + g L := by
  induction labels generalizing cnt with
  | nil => cases hL
  | cons a t ih =>
    rw [List.foldl_cons]
    rcases List.mem_cons.mp hL with rfl | hLt
    · rw [foldl_update_not_mem t g _ L (List.nodup_cons.mp hnd).1]
      rw [Function.update_same]
    · have hne : L ≠ a := by
        intro h
        exact (List.nodup_cons.mp hnd).1 (h ▸ hLt)
      rw [ih _ (List.nodup_cons.mp hnd).2 hLt]
      rw [Function.update_noteq hne _ _]

theorem labelChunks_ne_nil (imgs : List ImageData) (L : String)
    (hL : L ∈ exportLabels imgs) : 1 ≤ (labelChunks imgs L).length := by
  obtain ⟨img, himg, hlab⟩ := exportLabels_exists imgs L hL
  have hfilter : img ∈ imgs.filter (fun i => decide (getCustomLabel i = some L)) :=
    List.mem_filter.mpr ⟨himg, by rw [decide_eq_true_eq]; exact hlab⟩
  have hkey : clipKeyOf img ∈ clipKeysFor imgs L := by
    unfold clipKeysFor
    rw [List.mem_mergeSort, mem_uniqInOrder]
    exact List.mem_map_of_mem clipKeyOf hfilter
  have hframes : 1 ≤ (framesFor imgs L (clipKeyOf img)).length := by
    unfold framesFor sortFrames
    rw [List.length_mergeSort]
    have : img ∈ imgs.filter (fun i =>
        decide (getCustomLabel i = some L) && decide (clipKeyOf i = clipKeyOf img)) :=
      List.mem_filter.mpr ⟨himg, by
        rw [Bool.and_eq_true, decide_eq_true_eq, decide_eq_true_eq]
        exact ⟨hlab, rfl⟩⟩
    have hne : imgs.filter (fun i =>
        decide (getCustomLabel i = some L) && decide (clipKeyOf i = clipKeyOf img)) ≠ [] :=
      List.ne_nil_of_mem this
    have := List.length_pos.mpr hne
    omega
  have hchunks : sliceChunks 200
      (((framesFor imgs L (clipKeyOf img)).length + 199) / 200)
      (framesFor imgs L (clipKeyOf img)) ≠ [] := by
    unfold sliceChunks
    have hm1 : 1 ≤ ((framesFor imgs L (clipKeyOf img)).length + 199) / 200 := by omega
    intro hcon
    have := congrArg List.length hcon
    rw [List.length_map, List.length_range] at this
    simp at this
    omega
  obtain ⟨chunk, hchunk⟩ := List.exists_mem_of_ne_nil _ hchunks
  have hmem : (clipKeyOf img, chunk) ∈ labelChunks imgs L := by
    unfold labelChunks
    rw [List.mem_flatten]
    refine ⟨(sliceChunks 200 (((framesFor imgs L (clipKeyOf img)).length + 199) / 200)
      (framesFor imgs L (clipKeyOf img))).map (fun c => (clipKeyOf img, c)), ?_, ?_⟩
    · exact List.mem_map_of_mem _ hkey
    · exact List.mem_map_of_mem _ hchunk
  have := List.length_pos.mpr (List.ne_nil_of_mem hmem)
  omega

theorem export_characterization (images : List ImageData) (only : Bool)
    (counters : String → ℕ)
    (hne : (imagesToExport images only).isEmpty = false) :
    exportFolders images only counters =
      ((exportLabels (imagesToExport images only)).map
        (fun L => foldersFor (imagesToExport images only) L (counters L))).flatten ∧
    countersAfterExport images only counters =
      (exportLabels (imagesToExport images only)).foldl
        (fun cnt L => Function.update cnt L
          (cnt L + (labelChunks (imagesToExport images only) L).length)) counters := by
  unfold exportFolders countersAfterExport handleExportAnnotatedClips
  rw [hne, if_neg Bool.false_ne_true]
  exact ⟨rfl, rfl⟩

theorem range_map_head? (T : ℕ) (hT : 1 ≤ T) (f : ℕ → ℕ) :
    ((List.range T).map f).head? = some (f 0) := by
  cases T with
  | zero => omega
  | succ t => rw [List.range_succ_eq_map, List.map_cons, List.head?_cons]

theorem range_map_getLast? (T : ℕ) (hT : 1 ≤ T) (f : ℕ → ℕ) :
    ((List.range T).map f).getLast? = some (f (T - 1)) := by
  rw [List.getLast?_eq_getElem?]
  rw [List.length_map, List.length_range]
  rw [List.getElem?_map, List.getElem?_range (by omega)]
  rfl

/-- C2: when zero frames qualify after the "export only labeled" filter, the
export fails with `NothingToExport` and the Clip Counter Registry is left
completely unchanged. -/
theorem export_nothing_to_export (images : List ImageData) (only : Bool)
    (counters : String → ℕ) (h : imagesToExport images only = []) :
    handleExportAnnotatedClips images only counters =
      Except.error ExportError.NothingToExport ∧
    countersAfterExport images only counters = counters := by
  have hempty : (imagesToExport images only).isEmpty = true := by rw [h]; rfl
  constructor
  · unfold handleExportAnnotatedClips
    rw [hempty, if_pos rfl]
  · unfold countersAfterExport handleExportAnnotatedClips
    rw [hempty, if_pos rfl]

/-- Witness for C2: a store holding a single unlabeled frame (one generic
"Person" detection) exported with the only-labeled flag yields
`NothingToExport` and does not change the counters. -/
theorem export_nothing_to_export_witness :
    (imagesToExport [⟨"f1", [⟨0, 0, 5, 5, "Person", 1⟩], some 1, some "c1", none⟩]
      true = []) ∧
    (handleExportAnnotatedClips
        [⟨"f1", [⟨0, 0, 5, 5, "Person", 1⟩], some 1, some "c1", none⟩] true
        (fun _ => 0) = Except.error ExportError.NothingToExport) ∧
    (countersAfterExport
        [⟨"f1", [⟨0, 0, 5, 5, "Person", 1⟩], some 1, some "c1", none⟩] true
        (fun _ => 0) = (fun _ => 0)) :=
  ⟨by decide!,
    (export_nothing_to_export
      [⟨"f1", [⟨0, 0, 5, 5, "Person", 1⟩], some 1, some "c1", none⟩] true
      (fun _ => 0) (by decide!)).1,
    (export_nothing_to_export
      [⟨"f1", [⟨0, 0, 5, 5, "Person", 1⟩], some 1, some "c1", none⟩] true
      (fun _ => 0) (by decide!)).2⟩

/-- C8: in an only-labeled export, every emitted JSON descriptor's
`activityLabel` equals the label of the folder it is placed in, is non-empty,
and the folder's path segments are exactly that label sanitized
(`toSafePathSegment`). -/
theorem export_json_label_matches_folder (images : List ImageData)
    (counters : String → ℕ) (folder : ClipFolder)
    (hf : folder ∈ exportFolders images true counters)
    (f : FrameOut) (hfr : f ∈ folder.frames) :
    f.activityLabel = folder.label ∧ f.activityLabel ≠ "" ∧
    folder.safeLabel = toSafePathSegment f.activityLabel ∧
    folder.folderName =
      toSafePathSegment (folder.safeLabel ++ padNum 2 folder.clipNumber) := by
  by_cases hne : (imagesToExport images true).isEmpty
  · exfalso
    unfold exportFolders handleExportAnnotatedClips at hf
    rw [hne, if_pos rfl] at hf
    simp at hf
  · have hchar := export_characterization images true counters
      (by rwa [Bool.not_eq_true] at hne)
    rw [hchar.1, List.mem_flatten] at hf
    obtain ⟨component, hcomp, hfolder⟩ := hf
    rw [List.mem_map] at hcomp
    obtain ⟨L, hLmem, rfl⟩ := hcomp
    obtain ⟨hlab, hsafe, hname, hframes⟩ := foldersFor_mem_spec _ _ _ _ hfolder
    have hfl : f.activityLabel = L := hframes f hfr
    refine ⟨by rw [hfl, hlab], ?_, ?_, hname⟩
    · rw [hfl]
      obtain ⟨img, -, hsome⟩ := exportLabels_exists _ _ hLmem
      exact getCustomLabel_some_ne_empty img L hsome
    · rw [hfl, hsafe]

/-- Witness for C8: one frame labelled "Welding" in clip "c1" produces folder
`Welding01` whose single JSON descriptor carries the matching non-empty
activity label. -/
theorem export_json_label_matches_folder_witness :
    ((⟨"Welding", "Welding", 1, "Welding01", "c1",
        [⟨"frames00001", "Welding", "c1", some 1⟩]⟩ : ClipFolder) ∈
      exportFolders [⟨"f1", [], some 1, some "c1", some "Welding"⟩] true
        (fun _ => 0)) ∧
    (("Welding" : String) = "Welding" ∧ ("Welding" : String) ≠ "" ∧
      ("Welding" : String) = toSafePathSegment "Welding" ∧
      ("Welding01" : String) = toSafePathSegment ("Welding" ++ padNum 2 1)) :=
  ⟨by decide!,
    export_json_label_matches_folder
      [⟨"f1", [], some 1, some "c1", some "Welding"⟩] (fun _ => 0)
      ⟨"Welding", "Welding", 1, "Welding01", "c1",
        [⟨"frames00001", "Welding", "c1", some 1⟩]⟩ (by decide!)
      ⟨"frames00001", "Welding", "c1", some 1⟩ (by decide!)⟩

theorem export_ordinals_one (images : List ImageData) (only : Bool)
    (counters : String → ℕ) (L : String)
    (hL : L ∈ exportLabels (imagesToExport images only)) :
    ((exportFolders images only counters).filter
        (fun c => decide (c.label = L))).map (fun c => c.clipNumber) =
      (List.range (labelChunks (imagesToExport images only) L).length).map
        (fun t => counters L + t + 1) ∧
    countersAfterExport images only counters L =
      counters L + (labelChunks (imagesToExport images only) L).length := by
  have hne : (imagesToExport images only).isEmpty = false := by
    obtain ⟨img, himg, -⟩ := exportLabels_exists _ _ hL
    cases h : imagesToExport images only with
    | nil => rw [h] at himg; cases himg
    | cons a t => rfl
  have hchar := export_characterization images only counters hne
  have hnd : (exportLabels (imagesToExport images only)).Nodup := by
    unfold exportLabels
    exact uniqInOrder_nodup _
  constructor
  · rw [hchar.1, filter_flatten_label _ _ _ _ hnd hL, foldersFor_map_clipNumber]
  · rw [hchar.2]
    exact foldl_update_mem _ _ _ _ hnd hL

/-- C1: in every export, a label's clip folders receive the consecutive
ordinals `counter+1, …, counter+T` (T = that label's number of new clip
folders, ≥ 1), and `counter + T` is persisted; hence a second export of the
same label without a reset starts exactly at the first export's last ordinal
plus 1, so the ordinal ranges are disjoint and continuously ascending. -/
theorem export_ordinals (images₁ images₂ : List ImageData) (only₁ only₂ : Bool)
    (counters : String → ℕ) (L : String)
    (hL₁ : L ∈ exportLabels (imagesToExport images₁ only₁)) :
    ((exportFolders images₁ only₁ counters).filter
        (fun c => decide (c.label = L))).map (fun c => c.clipNumber) =
      (List.range (labelChunks (imagesToExport images₁ only₁) L).length).map
        (fun t => counters L + t + 1) ∧
    1 ≤ (labelChunks (imagesToExport images₁ only₁) L).length ∧
    countersAfterExport images₁ only₁ counters L =
      counters L + (labelChunks (imagesToExport images₁ only₁) L).length ∧
    (L ∈ exportLabels (imagesToExport images₂ only₂) →
      (((exportFolders images₂ only₂
            (countersAfterExport images₁ only₁ counters)).filter
          (fun c => decide (c.label = L))).map (fun c => c.clipNumber)).head? =
        some (((((exportFolders images₁ only₁ counters).filter
            (fun c => decide (c.label = L))).map
          (fun c => c.clipNumber)).getLast?).getD 0 + 1)) := by
  obtain ⟨h1, h3⟩ := export_ordinals_one images₁ only₁ counters L hL₁
  have hT₁ := labelChunks_ne_nil _ _ hL₁
  refine ⟨h1, hT₁, h3, ?_⟩
  intro hL₂
  obtain ⟨h1s, -⟩ := export_ordinals_one images₂ only₂
    (countersAfterExport images₁ only₁ counters) L hL₂
  have hT₂ := labelChunks_ne_nil _ _ hL₂
  rw [h1s, range_map_head? _ hT₂, h1, range_map_getLast? _ hT₁,
    Option.getD_some, h3]
  congr 1
  omega

/-- Witness for C1: two one-frame exports of "Welding" from fresh counters —
the first emits ordinal 1 and persists counter 1, the second starts at
ordinal 2. -/
theorem export_ordinals_witness :
    ("Welding" ∈ exportLabels (imagesToExport
        [⟨"f1", [], some 1, some "c1", some "Welding"⟩] true)) ∧
    (((exportFolders [⟨"f1", [], some 1, some "c1", some "Welding"⟩] true
          (fun _ => 0)).filter (fun c => decide (c.label = "Welding"))).map
        (fun c => c.clipNumber) = [1]) ∧
    (countersAfterExport [⟨"f1", [], some 1, some "c1", some "Welding"⟩] true
        (fun _ => 0) "Welding" = 1) ∧
    ((((exportFolders [⟨"f2", [], some 1, some "c2", some "Welding"⟩] true
          (countersAfterExport [⟨"f1", [], some 1, some "c1", some "Welding"⟩]
            true (fun _ => 0))).filter
        (fun c => decide (c.label = "Welding"))).map
        (fun c => c.clipNumber)).head? = some 2) := by
  have h := export_ordinals [⟨"f1", [], some 1, some "c1", some "Welding"⟩]
    [⟨"f2", [], some 1, some "c2", some "Welding"⟩] true true (fun _ => 0)
    "Welding" (by decide!)
  refine ⟨by decide!, ?_, ?_, ?_⟩
  · rw [h.1]
    decide!
  · rw [h.2.2.1]
    decide!
  · rw [h.2.2.2 (by decide!)]
    decide!

end LabelGenerator
